import Mathlib

/-!
# Verification of the polymarket-sim order ledger

Shallow embedding of the order ledger and position-accounting engine of
`src/hooks/useOrders.ts` (the `useOrders` hook): `placeOrder`, `sellOrder`
(FIFO close) and `updatePnl` (mark-to-market), together with the summary
projections each operation computes.

Modelling conventions:
* JavaScript numbers are modelled as exact rationals (`ℚ`).
* ISO-8601 timestamps are modelled as natural numbers (creation times are
  order-isomorphic to their string representation for valid timestamps).
* The optional snapshot fields `currentPrice?`, `currentValue?`, `pnl?`,
  `pnlPercentage?` of `Order` are modelled as `Option ℚ`; the JavaScript
  coalescing `x || 0` used in the summary sums becomes `Option.getD · 0`.
* Each mutating operation is a pure function from the stored ledger (plus the
  call's fresh id and current time) to an `OpResult`, whose `book` field is
  the ledger as persisted in storage after the call (equal to the input when
  the operation threw before its `saveOrdersToStorage` call) and whose
  `result` field is the thrown error or the returned order and the summary
  the operation computed.
* `outcomePrices` entries are quote values; an entry that is absent in the
  JavaScript sense (index out of range / empty string that `parseFloat`
  cannot use) is modelled as a missing index.
-/

namespace PolymarketSim

/-- The `action` field of an order: `'buy' | 'sell'`. -/
inductive Action where
  | buy : Action
  | sell : Action
deriving DecidableEq, Repr

/-- The `Order` record of `src/types/orders.ts`. -/
structure Order where
  id : String
  marketId : String
  marketQuestion : String
  outcome : String
  action : Action
  shares : ℚ
  price : ℚ
  totalCost : ℚ
  timestamp : ℕ
  currentPrice : Option ℚ
  currentValue : Option ℚ
  pnl : Option ℚ
  pnlPercentage : Option ℚ
deriving DecidableEq, Repr

/-- The `OrderBook` record: the persisted ledger. -/
structure OrderBook where
  orders : List Order
  lastUpdated : ℕ
deriving DecidableEq, Repr

/-- The `OrderSummary` recomputed by every mutating operation. -/
structure OrderSummary where
  totalOrders : ℕ
  totalInvested : ℚ
  totalCurrentValue : ℚ
  totalPnl : ℚ
  totalPnlPercentage : ℚ
  totalSellProceeds : ℚ
  realizedPnl : ℚ
deriving DecidableEq, Repr

/-- `STARTING_BALANCE = 10000`. -/
def STARTING_BALANCE : ℚ := 10000

/-- An order counted as an open buy: `o.action === 'buy' && o.shares > 0`. -/
def isOpenBuy (o : Order) : Bool :=
  o.action = Action.buy ∧ 0 < o.shares

/-- An order with `o.action === 'sell'`. -/
def isSell (o : Order) : Bool :=
  o.action = Action.sell

/-- Sum a rational-valued field over a list of orders. -/
def sumBy (f : Order → ℚ) (l : List Order) : ℚ :=
  (l.map f).sum

/-- `totalInvested` over open buys, as computed at the top of `placeOrder`:
`openBuys.reduce((sum, order) => sum + order.totalCost, 0)`. -/
def totalInvestedOf (orders : List Order) : ℚ :=
  sumBy Order.totalCost (orders.filter isOpenBuy)

/-- `realizedPnl`: sum of `pnl || 0` over all sell orders. -/
def realizedPnlOf (orders : List Order) : ℚ :=
  sumBy (fun o => o.pnl.getD 0) (orders.filter isSell)

/-- `currentBalance = STARTING_BALANCE - totalInvested + realizedPnl`. -/
def availableBalanceOf (orders : List Order) : ℚ :=
  STARTING_BALANCE - totalInvestedOf orders + realizedPnlOf orders

/-- The filter used by `sellOrder` both in its pre-check and in its FIFO
walk: `o.action === 'buy' && o.marketId === ... && o.outcome === ... &&
o.shares > 0`. -/
abbrev matchesTarget (marketId outcome : String) (o : Order) : Prop :=
  o.action = Action.buy ∧ o.marketId = marketId ∧ o.outcome = outcome ∧ 0 < o.shares

/-- Sum of open buy shares for one `(marketId, outcome)` pair, as computed by
`sellOrder`'s pre-check (`totalOpenShares`). -/
def openSharesFor (orders : List Order) (marketId outcome : String) : ℚ :=
  sumBy Order.shares (orders.filter (fun o => matchesTarget marketId outcome o))

/-- The `currentPosition` computed by `placeOrder`'s sell validation: a fold
over all orders of the `(marketId, outcome)` pair adding buy shares and
subtracting sell shares. -/
def netPositionOf (orders : List Order) (marketId outcome : String) : ℚ :=
  (orders.filter (fun o => o.marketId = marketId ∧ o.outcome = outcome)).foldl
    (fun net o => if o.action = Action.buy then net + o.shares else net - o.shares) 0

/-- The errors thrown by the order engine. -/
inductive OrderError where
  | orderNotFound : OrderError
  | insufficientShares (held requested : ℚ) : OrderError
  | insufficientBalance (available required : ℚ) : OrderError
  | sanityCheck (available : ℚ) : OrderError
deriving DecidableEq, Repr

/-- Result of a mutating operation: the ledger as persisted after the call,
and either the thrown error or the returned order plus the summary set. -/
structure OpResult where
  book : OrderBook
  result : Except OrderError (Order × OrderSummary)

/-- The error thrown by the operation, if any. -/
def OpResult.errorOf (r : OpResult) : Option OrderError :=
  match r.result with
  | Except.error e => some e
  | Except.ok _ => none

/-- The order returned by the operation on success. -/
def OpResult.orderOf (r : OpResult) : Option Order :=
  match r.result with
  | Except.ok (o, _) => some o
  | Except.error _ => none

/-- The summary the operation computed on success. -/
def OpResult.summaryOf (r : OpResult) : Option OrderSummary :=
  match r.result with
  | Except.ok (_, s) => some s
  | Except.error _ => none

/-- The summary `placeOrder` sets after persisting (lines 158-172): sums over
all buy orders, counts open buys, and hard-codes `totalSellProceeds = 0` and
`realizedPnl = 0`. -/
def mkPlaceSummary (orders : List Order) : OrderSummary :=
  let buys := orders.filter (fun o => o.action = Action.buy)
  let totalInvested := sumBy Order.totalCost buys
  let totalCurrentValue := sumBy (fun o => o.currentValue.getD 0) buys
  let totalPnl := totalCurrentValue - totalInvested
  let totalPnlPercentage := if 0 < totalInvested then totalPnl / totalInvested * 100 else 0
  { totalOrders := (orders.filter isOpenBuy).length
    totalInvested := totalInvested
    totalCurrentValue := totalCurrentValue
    totalPnl := totalPnl
    totalPnlPercentage := totalPnlPercentage
    totalSellProceeds := 0
    realizedPnl := 0 }

/-- The summary computed by `sellOrder` (lines 253-269) and `updatePnl`
(lines 342-358): open-buy aggregates plus sell proceeds and realized P&L. -/
def mkFullSummary (orders : List Order) : OrderSummary :=
  let openBuys := orders.filter isOpenBuy
  let sells := orders.filter isSell
  let totalInvested := sumBy Order.totalCost openBuys
  let totalCurrentValue := sumBy (fun o => o.currentValue.getD 0) openBuys
  let totalSellProceeds := sumBy Order.totalCost sells
  let realizedPnl := sumBy (fun o => o.pnl.getD 0) sells
  let totalPnl := totalCurrentValue - totalInvested
  let totalPnlPercentage := if 0 < totalInvested then totalPnl / totalInvested * 100 else 0
  { totalOrders := openBuys.length
    totalInvested := totalInvested
    totalCurrentValue := totalCurrentValue
    totalPnl := totalPnl
    totalPnlPercentage := totalPnlPercentage
    totalSellProceeds := totalSellProceeds
    realizedPnl := realizedPnl }

/-- The `newOrder` record built by `placeOrder` (lines 134-148): initial
snapshot at the execution price, `pnl = 0`, `pnlPercentage = 0`. -/
def placedOrder (marketId marketQuestion outcome : String) (action : Action)
    (shares price : ℚ) (newId : String) (now : ℕ) : Order :=
  { id := newId
    marketId := marketId
    marketQuestion := marketQuestion
    outcome := outcome
    action := action
    shares := shares
    price := price
    totalCost := shares * price
    timestamp := now
    currentPrice := some price
    currentValue := some (shares * price)
    pnl := some 0
    pnlPercentage := some 0 }

/-- `placeOrder(marketId, marketQuestion, outcome, action, shares, price)`
of `useOrders.ts` lines 88-187. `newId` is the generated order id and `now`
the current time used for the order's timestamp and `lastUpdated`.
`availableBalanceOf` is the `currentBalance` of lines 100-103. -/
def placeOrder (ob : OrderBook) (marketId marketQuestion outcome : String)
    (action : Action) (shares price : ℚ) (newId : String) (now : ℕ) : OpResult :=
  if action = Action.buy ∧ availableBalanceOf ob.orders < shares * price then
    ⟨ob, Except.error
      (OrderError.insufficientBalance (availableBalanceOf ob.orders) (shares * price))⟩
  else if action = Action.sell ∧ netPositionOf ob.orders marketId outcome < shares then
    ⟨ob, Except.error
      (OrderError.insufficientShares (netPositionOf ob.orders marketId outcome) shares)⟩
  else
    ⟨⟨ob.orders ++ [placedOrder marketId marketQuestion outcome action shares price newId now],
        now⟩,
      Except.ok
        (placedOrder marketId marketQuestion outcome action shares price newId now,
          mkPlaceSummary
            (ob.orders ++
              [placedOrder marketId marketQuestion outcome action shares price newId now]))⟩

/-- The FIFO consumption loop of `sellOrder` (lines 211-224): walk the order
list in storage order; while shares remain to sell, consume
`min(buyOrder.shares, sharesLeftToSell)` from each open buy of the target
`(marketId, outcome)`, decrementing its `shares` and `totalCost`
proportionally and accumulating the consumed cost basis. Returns the
rewritten order list, the accumulated `costBasis`, and the final
`sharesLeftToSell`. -/
def fifoWalk (orders : List Order) (marketId outcome : String) (left : ℚ) :
    List Order × ℚ × ℚ :=
  match orders with
  | [] => ([], 0, left)
  | o :: rest =>
    if 0 < left ∧ matchesTarget marketId outcome o then
      let consumed := min o.shares left
      let costPerShare := o.totalCost / o.shares
      let o' := { o with
        shares := o.shares - consumed
        totalCost := o.totalCost - costPerShare * consumed }
      let r := fifoWalk rest marketId outcome (left - consumed)
      (o' :: r.1, costPerShare * consumed + r.2.1, r.2.2)
    else
      let r := fifoWalk rest marketId outcome left
      (o :: r.1, r.2.1, r.2.2)

/-- The sell order record created by `sellOrder` (lines 227-246), given the
`costBasis` accumulated by the FIFO walk: `totalCost` stores the proceeds
`sharesToSell * currentPrice`, `pnl = proceeds - costBasis`, and
`pnlPercentage = pnl / costBasis * 100` (`0` when `costBasis ≤ 0`). -/
def sellRecordOf (order : Order) (currentPrice sharesToSell costBasis : ℚ)
    (newId : String) (now : ℕ) : Order :=
  { id := newId
    marketId := order.marketId
    marketQuestion := order.marketQuestion
    outcome := order.outcome
    action := Action.sell
    shares := sharesToSell
    price := currentPrice
    totalCost := sharesToSell * currentPrice
    timestamp := now
    currentPrice := some currentPrice
    currentValue := some (sharesToSell * currentPrice)
    pnl := some (sharesToSell * currentPrice - costBasis)
    pnlPercentage := some (if 0 < costBasis
      then (sharesToSell * currentPrice - costBasis) / costBasis * 100 else 0) }

/-- The buy orders after `sellOrder`'s FIFO walk and its pruning of
zero-share buys (line 226: keep `o.action !== 'buy' || o.shares > 0`). -/
def soldOrders (orders : List Order) (marketId outcome : String) (sharesToSell : ℚ) :
    List Order :=
  (fifoWalk orders marketId outcome sharesToSell).1.filter
    (fun o => o.action ≠ Action.buy ∨ 0 < o.shares)

/-- The full order list persisted by a successful `sellOrder` walk: pruned
buys plus the appended sell record (lines 225-248). -/
def postSellOrders (orders : List Order) (order : Order)
    (currentPrice sharesToSell : ℚ) (newId : String) (now : ℕ) : List Order :=
  soldOrders orders order.marketId order.outcome sharesToSell ++
    [sellRecordOf order currentPrice sharesToSell
      (fifoWalk orders order.marketId order.outcome sharesToSell).2.1 newId now]

/-- `sellOrder(orderId, currentPrice, markets, sharesToSell)` of
`useOrders.ts` lines 190-290: locate the referenced order, pre-check total
open shares for its `(marketId, outcome)`, FIFO-consume open buys, prune
zero-share buys, append the realized sell order, persist, and finally throw
if the resulting available balance exceeds `1.1 * STARTING_BALANCE`. The
code computes that balance as `STARTING_BALANCE - totalInvested +
realizedPnl` from the recomputed summary of the freshly persisted ledger,
which is exactly `availableBalanceOf` of the persisted order list. The
sanity check runs after `saveOrdersToStorage`, so on that path the mutated
ledger is already persisted when the error is thrown. -/
def sellOrder (ob : OrderBook) (orderId : String) (currentPrice sharesToSell : ℚ)
    (newId : String) (now : ℕ) : OpResult :=
  match ob.orders.find? (fun o => o.id = orderId) with
  | none => ⟨ob, Except.error OrderError.orderNotFound⟩
  | some order =>
    if openSharesFor ob.orders order.marketId order.outcome < sharesToSell then
      ⟨ob, Except.error (OrderError.insufficientShares
        (openSharesFor ob.orders order.marketId order.outcome) sharesToSell)⟩
    else if STARTING_BALANCE * (11 / 10) <
        availableBalanceOf (postSellOrders ob.orders order currentPrice sharesToSell newId now)
      then
      ⟨⟨postSellOrders ob.orders order currentPrice sharesToSell newId now, now⟩,
        Except.error (OrderError.sanityCheck
          (availableBalanceOf
            (postSellOrders ob.orders order currentPrice sharesToSell newId now)))⟩
    else
      ⟨⟨postSellOrders ob.orders order currentPrice sharesToSell newId now, now⟩,
        Except.ok
          (sellRecordOf order currentPrice sharesToSell
            (fifoWalk ob.orders order.marketId order.outcome sharesToSell).2.1 newId now,
          mkFullSummary (postSellOrders ob.orders order currentPrice sharesToSell newId now))⟩

/-- The `PolymarketMarket` fields consumed by `updatePnl`. -/
structure Market where
  id : String
  conditionId : String
  condition_id : Option String
  outcomes : List String
  outcomePrices : List ℚ
  isExpired : Bool
  resolvedOutcome : Option String
deriving DecidableEq, Repr

/-- The market lookup of `updatePnl` (lines 301-305): first market whose
`id`, `conditionId` or `condition_id` equals the order's `marketId`. -/
def findMarketFor (markets : List Market) (marketId : String) : Option Market :=
  markets.find? (fun m =>
    m.id = marketId ∨ m.conditionId = marketId ∨ m.condition_id = some marketId)

/-- The quote lookup of `updatePnl` (lines 307-309): the price at the index
of the order's outcome in `market.outcomes`, when both exist. -/
def quoteFor (market : Market) (outcome : String) : Option ℚ :=
  match market.outcomes.findIdx? (fun o => o = outcome) with
  | some i => market.outcomePrices[i]?
  | none => none

/-- The per-order body of `updatePnl`'s map (lines 298-333): refresh the
snapshot fields of an open buy order whose market and quote are found,
overriding the quote with the terminal `1.0 / 0.0` price when the market is
expired with a declared (truthy) winning outcome. Every other order is
returned unchanged. -/
def updateOrder (markets : List Market) (o : Order) : Order :=
  if o.action = Action.buy ∧ 0 < o.shares then
    match findMarketFor markets o.marketId with
    | some market =>
      match quoteFor market o.outcome with
      | some q =>
        let currentPrice :=
          match market.resolvedOutcome with
          | some w =>
            if market.isExpired = true ∧ w ≠ "" then
              if o.outcome = w then (1 : ℚ) else 0
            else q
          | none => q
        let currentValue := o.shares * currentPrice
        let pnl := currentValue - o.totalCost
        let pnlPercentage := if 0 < o.totalCost then pnl / o.totalCost * 100 else 0
        { o with
          currentPrice := some currentPrice
          currentValue := some currentValue
          pnl := some pnl
          pnlPercentage := some pnlPercentage }
      | none => o
    | none => o
  else o

/-- Whether `updatePnl` reaches the branch that sets `updated = true` for
this order: it is an open buy with a found market and a found quote. -/
def touched (markets : List Market) (o : Order) : Bool :=
  (o.action = Action.buy ∧ 0 < o.shares) &&
    (match findMarketFor markets o.marketId with
     | some market => (quoteFor market o.outcome).isSome
     | none => false)

/-- `updatePnl(markets)` of `useOrders.ts` lines 293-375: map every order
through `updateOrder`; persist (with a fresh `lastUpdated`) exactly when some
order set the `updated` flag; recompute the full summary from the ledger as
stored after the call. Returns the stored ledger, the `updated` flag, and
the summary. -/
def updatePnl (ob : OrderBook) (markets : List Market) (now : ℕ) :
    OrderBook × Bool × OrderSummary :=
  let updatedOrders := ob.orders.map (updateOrder markets)
  let updated := ob.orders.any (touched markets)
  let stored := if updated then OrderBook.mk updatedOrders now else ob
  (stored, updated, mkFullSummary stored.orders)

/-! ## Concrete fixtures used by the claim analyses -/

/-- Fixture builder: an open buy order with freshly-placed snapshot fields. -/
def mkBuy (id marketId outcome : String) (shares price totalCost : ℚ) (ts : ℕ) : Order :=
  { id := id
    marketId := marketId
    marketQuestion := "q"
    outcome := outcome
    action := Action.buy
    shares := shares
    price := price
    totalCost := totalCost
    timestamp := ts
    currentPrice := some price
    currentValue := some (shares * price)
    pnl := some 0
    pnlPercentage := some 0 }

/-- Fixture builder: a realized sell order with the given locked P&L. -/
def mkSell (id marketId outcome : String) (shares price proceeds : ℚ) (ts : ℕ)
    (pnl pct : ℚ) : Order :=
  { id := id
    marketId := marketId
    marketQuestion := "q"
    outcome := outcome
    action := Action.sell
    shares := shares
    price := price
    totalCost := proceeds
    timestamp := ts
    currentPrice := some price
    currentValue := some proceeds
    pnl := some pnl
    pnlPercentage := some pct }

/-- C1 scenario: earlier open buy, 100 shares at 0.40 (cost 40). -/
def c1buy1 : Order := mkBuy "b1" "m1" "Yes" 100 (2 / 5) 40 1

/-- C1 scenario: later open buy, 100 shares at 0.70 (cost 70). -/
def c1buy2 : Order := mkBuy "b2" "m1" "Yes" 100 (7 / 10) 70 2

/-- C1 scenario ledger: exactly the two buys for `("m1", "Yes")`. -/
def c1book : OrderBook := ⟨[c1buy1, c1buy2], 2⟩

/-- C1 scenario call: sell 150 shares at 0.60 against the referenced pair. -/
def c1result : OpResult := sellOrder c1book "b1" (3 / 5) 150 "s1" 3

/-- The sell record the C1 call appends: proceeds 90 against cost basis 75. -/
def c1sellRecord : Order := sellRecordOf c1buy1 (3 / 5) 150 75 "s1" 3

/-- The later buy after the C1 call: 50 shares, cost basis 35 left. -/
def c1buy2After : Order := { c1buy2 with shares := 50, totalCost := 35 }

/-- C5 scenario: an open buy of 100 shares for `("m", "Yes")`. -/
def c5buy : Order := mkBuy "b" "m" "Yes" 100 (1 / 2) 50 1

/-- C5 scenario: a prior standalone sell of 50 shares for the same pair. -/
def c5sell : Order := mkSell "s" "m" "Yes" 50 (1 / 2) 25 2 0 0

/-- C5 scenario ledger: buy of 100 plus standalone sell of 50. -/
def c5book : OrderBook := ⟨[c5buy, c5sell], 2⟩

/-- C6 scenario: an open buy on `"Yes"` in market `"m1"`. -/
def c6order : Order := mkBuy "o1" "m1" "Yes" 10 (2 / 5) 4 1

/-- C6 scenario: market `"m1"` is expired with declared winner `"Yes"`, but
its `outcomes`/`outcomePrices` lists are empty, so no quote can be found. -/
def c6market : Market := ⟨"m1", "c1", none, [], [], true, some "Yes"⟩

/-- C6 scenario ledger. -/
def c6book : OrderBook := ⟨[c6order], 1⟩

/-- C6 witness market: expired, resolved to `"Yes"`, with listed outcomes
and prices. -/
def c6resMarket : Market := ⟨"m2", "", none, ["Yes", "No"], [3 / 10, 7 / 10], true, some "Yes"⟩

/-- C6 witness order: an open buy on the losing outcome `"No"`. -/
def c6noOrder : Order := mkBuy "o2" "m2" "No" 10 (7 / 10) 7 1

/-- C7 scenario: an open buy whose stored snapshot already equals what a
quote of 0.5 recomputes. -/
def c7order : Order := mkBuy "o" "m1" "Yes" 100 (1 / 2) 50 1

/-- C7 scenario: an unexpired market quoting exactly 0.5 for `"Yes"`. -/
def c7market : Market := ⟨"m1", "", none, ["Yes"], [1 / 2], false, none⟩

/-- C7 scenario ledger, last updated at time 0. -/
def c7book : OrderBook := ⟨[c7order], 0⟩

/-- C8 scenario: an existing sell order with realized `pnl = 15`. -/
def c8sell : Order := mkSell "s" "m" "Yes" 50 (1 / 2) 25 2 15 60

/-- C8 scenario ledger. -/
def c8book : OrderBook := ⟨[c8sell], 2⟩

/-- C9 scenario: open buy of 2500 shares at 0.01 (cost 25). -/
def c9buy : Order := mkBuy "b" "m" "Yes" 2500 (1 / 100) 25 1

/-- C9 scenario ledger. -/
def c9book : OrderBook := ⟨[c9buy], 1⟩

/-- C9 scenario call: selling all 2500 shares at 0.50 realizes pnl 1225, so
the post-sell available balance 11225 trips the sanity check. -/
def c9result : OpResult := sellOrder c9book "b" (1 / 2) 2500 "s" 2

/-- C10 witness: an open buy of 10 shares to sell against. -/
def w10buy : Order := mkBuy "wb" "m" "Yes" 10 (1 / 2) 5 1

/-- C10 witness ledger. -/
def w10book : OrderBook := ⟨[w10buy], 1⟩

/-! ## Helper lemmas about the FIFO walk -/

theorem fifoWalk_cons_of_pos (m oc : String) (o : Order) (rest : List Order) (q : ℚ)
    (h : 0 < q ∧ matchesTarget m oc o) :
    fifoWalk (o :: rest) m oc q =
      ({ o with shares := o.shares - min o.shares q
                totalCost := o.totalCost - o.totalCost / o.shares * min o.shares q } ::
          (fifoWalk rest m oc (q - min o.shares q)).1,
        o.totalCost / o.shares * min o.shares q + (fifoWalk rest m oc (q - min o.shares q)).2.1,
        (fifoWalk rest m oc (q - min o.shares q)).2.2) := by
  simp only [fifoWalk, if_pos h]

theorem fifoWalk_cons_of_neg (m oc : String) (o : Order) (rest : List Order) (q : ℚ)
    (h : ¬ (0 < q ∧ matchesTarget m oc o)) :
    fifoWalk (o :: rest) m oc q =
      (o :: (fifoWalk rest m oc q).1, (fifoWalk rest m oc q).2.1,
        (fifoWalk rest m oc q).2.2) := by
  simp only [fifoWalk, if_neg h]

theorem fifoWalk_length (m oc : String) :
    ∀ (orders : List Order) (q : ℚ), (fifoWalk orders m oc q).1.length = orders.length := by
  intro orders
  induction orders with
  | nil => intro q; rfl
  | cons o rest ih =>
    intro q
    by_cases h : 0 < q ∧ matchesTarget m oc o
    · rw [fifoWalk_cons_of_pos m oc o rest q h]
      simp [ih]
    · rw [fifoWalk_cons_of_neg m oc o rest q h]
      simp [ih]

theorem fifoWalk_nonpos (m oc : String) :
    ∀ (orders : List Order) (q : ℚ), q ≤ 0 → fifoWalk orders m oc q = (orders, 0, q) := by
  intro orders
  induction orders with
  | nil => intro q _; rfl
  | cons o rest ih =>
    intro q hq
    have hcond : ¬ (0 < q ∧ matchesTarget m oc o) := fun hc => absurd hc.1 (not_lt.mpr hq)
    rw [fifoWalk_cons_of_neg m oc o rest q hcond, ih q hq]

theorem openSharesFor_nonneg (orders : List Order) (m oc : String) :
    0 ≤ openSharesFor orders m oc := by
  unfold openSharesFor sumBy
  apply List.sum_nonneg
  intro x hx
  obtain ⟨o, ho, rfl⟩ := List.mem_map.mp hx
  have hmem := List.of_mem_filter ho
  exact le_of_lt (of_decide_eq_true hmem).2.2.2

theorem openSharesFor_cons (o : Order) (rest : List Order) (m oc : String) :
    openSharesFor (o :: rest) m oc =
      (if matchesTarget m oc o then o.shares else 0) + openSharesFor rest m oc := by
  by_cases h : matchesTarget m oc o
  · rw [if_pos h]
    simp [openSharesFor, sumBy, List.filter_cons, h]
  · rw [if_neg h, zero_add]
    simp [openSharesFor, sumBy, List.filter_cons, h]

/-- The FIFO walk's final `sharesLeftToSell`: everything beyond the total
open shares of the target pair remains unallocated, clamped at zero. -/
theorem fifoWalk_left_eq (m oc : String) :
    ∀ (orders : List Order) (q : ℚ), 0 ≤ q →
      (fifoWalk orders m oc q).2.2 = max 0 (q - openSharesFor orders m oc) := by
  intro orders
  induction orders with
  | nil =>
    intro q hq
    simp [fifoWalk, openSharesFor, sumBy, max_eq_right hq]
  | cons o rest ih =>
    intro q hq
    by_cases hP : matchesTarget m oc o
    · by_cases hq0 : 0 < q
      · rw [fifoWalk_cons_of_pos m oc o rest q ⟨hq0, hP⟩]
        rcases le_or_lt o.shares q with hsq | hqs
        · have hmin : min o.shares q = o.shares := min_eq_left hsq
          have hrest : 0 ≤ q - o.shares := by linarith
          rw [hmin]
          dsimp only
          rw [ih (q - o.shares) hrest, openSharesFor_cons, if_pos hP]
          congr 1
          ring
        · have hmin : min o.shares q = q := min_eq_right (le_of_lt hqs)
          rw [hmin]
          dsimp only
          rw [sub_self, fifoWalk_nonpos m oc rest 0 le_rfl]
          have hSr := openSharesFor_nonneg rest m oc
          rw [openSharesFor_cons, if_pos hP]
          have : q - (o.shares + openSharesFor rest m oc) < 0 := by linarith
          rw [max_eq_left (le_of_lt this)]
      · have hq0' : q = 0 := le_antisymm (not_lt.mp hq0) hq
        subst hq0'
        rw [fifoWalk_nonpos m oc (o :: rest) 0 le_rfl]
        have hS := openSharesFor_nonneg (o :: rest) m oc
        simp [max_eq_left, hS]
    · have hcond : ¬ (0 < q ∧ matchesTarget m oc o) := fun hc => hP hc.2
      rw [fifoWalk_cons_of_neg m oc o rest q hcond]
      dsimp only
      rw [ih q hq, openSharesFor_cons, if_neg hP, zero_add]

/-- Positional FIFO property of the walk: if the order at position `j` had
shares consumed, then every matching open buy at an earlier position `i` was
consumed down to zero shares. -/
theorem fifoWalk_fifo (m oc : String) :
    ∀ (orders : List Order) (q : ℚ) (i j : ℕ) (oi oj oj' : Order),
      orders[i]? = some oi → orders[j]? = some oj →
      (fifoWalk orders m oc q).1[j]? = some oj' →
      oj'.shares < oj.shares → i < j → matchesTarget m oc oi →
      ∃ oi', (fifoWalk orders m oc q).1[i]? = some oi' ∧ oi'.shares = 0 := by
  intro orders
  induction orders with
  | nil =>
    intro q i j oi oj oj' hi
    simp at hi
  | cons o rest ih =>
    intro q i j oi oj oj' hi hj hj' hred hij hP
    obtain ⟨j', rfl⟩ : ∃ t, j = t + 1 := ⟨j - 1, by omega⟩
    rw [List.getElem?_cons_succ] at hj
    by_cases hcond : 0 < q ∧ matchesTarget m oc o
    · rw [fifoWalk_cons_of_pos m oc o rest q hcond] at hj' ⊢
      rw [List.getElem?_cons_succ] at hj'
      cases i with
      | zero =>
        rcases le_or_lt o.shares q with hsq | hqs
        · refine ⟨_, List.getElem?_cons_zero, ?_⟩
          simp [min_eq_left hsq]
        · exfalso
          have hmin : min o.shares q = q := min_eq_right (le_of_lt hqs)
          rw [hmin, sub_self, fifoWalk_nonpos m oc rest 0 le_rfl] at hj'
          rw [hj] at hj'
          have heq : oj = oj' := Option.some.inj hj'
          rw [← heq] at hred
          exact lt_irrefl _ hred
      | succ i' =>
        rw [List.getElem?_cons_succ] at hi ⊢
        exact ih (q - min o.shares q) i' j' oi oj oj' hi hj hj' hred (by omega) hP
    · rw [fifoWalk_cons_of_neg m oc o rest q hcond] at hj' ⊢
      rw [List.getElem?_cons_succ] at hj'
      cases i with
      | zero =>
        exfalso
        have hoi : o = oi := by
          have h0 := hi
          rw [List.getElem?_cons_zero] at h0
          exact Option.some.inj h0
        have hq0 : ¬ 0 < q := fun h => hcond ⟨h, hoi ▸ hP⟩
        rw [fifoWalk_nonpos m oc rest q (le_of_not_lt hq0)] at hj'
        rw [hj] at hj'
        have heq : oj = oj' := Option.some.inj hj'
        rw [← heq] at hred
        exact lt_irrefl _ hred
      | succ i' =>
        rw [List.getElem?_cons_succ] at hi ⊢
        exact ih q i' j' oi oj oj' hi hj hj' hred (by omega) hP

/-- The FIFO walk rewrites only matching open buys; sell orders pass through
unchanged (as list members). -/
theorem fifoWalk_preserves_sells (m oc : String) :
    ∀ (orders : List Order) (q : ℚ) (o : Order), o ∈ orders → o.action = Action.sell →
      o ∈ (fifoWalk orders m oc q).1 := by
  intro orders
  induction orders with
  | nil =>
    intro q o ho
    simp at ho
  | cons a rest ih =>
    intro q o ho hsell
    by_cases hcond : 0 < q ∧ matchesTarget m oc a
    · rw [fifoWalk_cons_of_pos m oc a rest q hcond]
      rcases List.mem_cons.mp ho with rfl | ho'
      · exfalso
        have hbuy := hcond.2.1
        rw [hsell] at hbuy
        exact absurd hbuy (by decide)
      · exact List.mem_cons_of_mem _ (ih _ o ho' hsell)
    · rw [fifoWalk_cons_of_neg m oc a rest q hcond]
      rcases List.mem_cons.mp ho with rfl | ho'
      · exact List.mem_cons_self _ _
      · exact List.mem_cons_of_mem _ (ih q o ho' hsell)

/-! ## Helper lemmas about mark-to-market -/

theorem updateOrder_of_not_openBuy (markets : List Market) (o : Order)
    (h : ¬ (o.action = Action.buy ∧ 0 < o.shares)) : updateOrder markets o = o := by
  unfold updateOrder
  rw [if_neg h]

theorem updateOrder_of_untouched (markets : List Market) (o : Order)
    (h : touched markets o = false) : updateOrder markets o = o := by
  by_cases hob : o.action = Action.buy ∧ 0 < o.shares
  · unfold updateOrder
    rw [if_pos hob]
    cases hm : findMarketFor markets o.marketId with
    | none => simp [hm]
    | some market =>
      cases hq : quoteFor market o.outcome with
      | none => simp [hm, hq]
      | some p =>
        exfalso
        unfold touched at h
        rw [hm] at h
        simp [hob, hq] at h
  · exact updateOrder_of_not_openBuy markets o hob

theorem updatePnl_orders (ob : OrderBook) (markets : List Market) (now : ℕ) :
    (updatePnl ob markets now).1.orders = ob.orders.map (updateOrder markets) := by
  unfold updatePnl
  by_cases h : ob.orders.any (touched markets)
  · simp [h]
  · rw [Bool.not_eq_true] at h
    simp only [h, Bool.false_eq_true, if_neg, ite_false]
    have hall : ∀ o ∈ ob.orders, updateOrder markets o = o := by
      intro o ho
      exact updateOrder_of_untouched markets o (by simpa using List.any_eq_false.mp h o ho)
    calc ob.orders = ob.orders.map id := by rw [List.map_id]
    _ = ob.orders.map (updateOrder markets) := by
        symm
        exact List.map_congr_left hall

/-! ## Helper lemmas about the summaries and balances -/

theorem mkFullSummary_realizedPnl (orders : List Order) :
    (mkFullSummary orders).realizedPnl = realizedPnlOf orders := rfl

theorem mkPlaceSummary_realizedPnl (orders : List Order) :
    (mkPlaceSummary orders).realizedPnl = 0 := rfl

theorem realizedPnlOf_append_sell (l : List Order) (o : Order)
    (h : o.action = Action.sell) :
    realizedPnlOf (l ++ [o]) = realizedPnlOf l + o.pnl.getD 0 := by
  simp [realizedPnlOf, sumBy, List.filter_append, List.filter_cons, isSell, h]

theorem realizedPnlOf_append_buy (l : List Order) (o : Order)
    (h : o.action = Action.buy) :
    realizedPnlOf (l ++ [o]) = realizedPnlOf l := by
  simp [realizedPnlOf, sumBy, List.filter_append, List.filter_cons, isSell, h]

theorem totalInvestedOf_append_sell (l : List Order) (o : Order)
    (h : o.action = Action.sell) :
    totalInvestedOf (l ++ [o]) = totalInvestedOf l := by
  simp [totalInvestedOf, sumBy, List.filter_append, List.filter_cons, isOpenBuy, h]

/-! ## Shape lemmas for `placeOrder` and `sellOrder` -/

theorem placeOrder_eq_insufficientBalance (ob : OrderBook) (mId mQ oc : String)
    (act : Action) (sh pr : ℚ) (nid : String) (now : ℕ)
    (h : act = Action.buy ∧ availableBalanceOf ob.orders < sh * pr) :
    placeOrder ob mId mQ oc act sh pr nid now =
      ⟨ob, Except.error
        (OrderError.insufficientBalance (availableBalanceOf ob.orders) (sh * pr))⟩ := by
  unfold placeOrder
  rw [if_pos h]

theorem placeOrder_eq_insufficientShares (ob : OrderBook) (mId mQ oc : String)
    (act : Action) (sh pr : ℚ) (nid : String) (now : ℕ)
    (h1 : ¬ (act = Action.buy ∧ availableBalanceOf ob.orders < sh * pr))
    (h2 : act = Action.sell ∧ netPositionOf ob.orders mId oc < sh) :
    placeOrder ob mId mQ oc act sh pr nid now =
      ⟨ob, Except.error (OrderError.insufficientShares (netPositionOf ob.orders mId oc) sh)⟩ := by
  unfold placeOrder
  rw [if_neg h1, if_pos h2]

theorem placeOrder_eq_ok (ob : OrderBook) (mId mQ oc : String)
    (act : Action) (sh pr : ℚ) (nid : String) (now : ℕ)
    (h1 : ¬ (act = Action.buy ∧ availableBalanceOf ob.orders < sh * pr))
    (h2 : ¬ (act = Action.sell ∧ netPositionOf ob.orders mId oc < sh)) :
    placeOrder ob mId mQ oc act sh pr nid now =
      ⟨⟨ob.orders ++ [placedOrder mId mQ oc act sh pr nid now], now⟩,
        Except.ok (placedOrder mId mQ oc act sh pr nid now,
          mkPlaceSummary (ob.orders ++ [placedOrder mId mQ oc act sh pr nid now]))⟩ := by
  unfold placeOrder
  rw [if_neg h1, if_neg h2]

theorem sellOrder_eq_notFound (ob : OrderBook) (orderId : String) (cp q : ℚ)
    (nid : String) (now : ℕ)
    (h : ob.orders.find? (fun o => o.id = orderId) = none) :
    sellOrder ob orderId cp q nid now = ⟨ob, Except.error OrderError.orderNotFound⟩ := by
  simp only [sellOrder, h]

theorem sellOrder_eq_insufficientShares (ob : OrderBook) (orderId : String) (cp q : ℚ)
    (nid : String) (now : ℕ) (order : Order)
    (h : ob.orders.find? (fun o => o.id = orderId) = some order)
    (hlt : openSharesFor ob.orders order.marketId order.outcome < q) :
    sellOrder ob orderId cp q nid now =
      ⟨ob, Except.error (OrderError.insufficientShares
        (openSharesFor ob.orders order.marketId order.outcome) q)⟩ := by
  simp only [sellOrder, h]
  rw [if_pos hlt]

theorem sellOrder_eq_sanity (ob : OrderBook) (orderId : String) (cp q : ℚ)
    (nid : String) (now : ℕ) (order : Order)
    (h : ob.orders.find? (fun o => o.id = orderId) = some order)
    (hge : ¬ openSharesFor ob.orders order.marketId order.outcome < q)
    (hsan : STARTING_BALANCE * (11 / 10) <
      availableBalanceOf (postSellOrders ob.orders order cp q nid now)) :
    sellOrder ob orderId cp q nid now =
      ⟨⟨postSellOrders ob.orders order cp q nid now, now⟩,
        Except.error (OrderError.sanityCheck
          (availableBalanceOf (postSellOrders ob.orders order cp q nid now)))⟩ := by
  simp only [sellOrder, h]
  rw [if_neg hge, if_pos hsan]

theorem sellOrder_eq_ok (ob : OrderBook) (orderId : String) (cp q : ℚ)
    (nid : String) (now : ℕ) (order : Order)
    (h : ob.orders.find? (fun o => o.id = orderId) = some order)
    (hge : ¬ openSharesFor ob.orders order.marketId order.outcome < q)
    (hsan : ¬ STARTING_BALANCE * (11 / 10) <
      availableBalanceOf (postSellOrders ob.orders order cp q nid now)) :
    sellOrder ob orderId cp q nid now =
      ⟨⟨postSellOrders ob.orders order cp q nid now, now⟩,
        Except.ok (sellRecordOf order cp q
            (fifoWalk ob.orders order.marketId order.outcome q).2.1 nid now,
          mkFullSummary (postSellOrders ob.orders order cp q nid now))⟩ := by
  simp only [sellOrder, h]
  rw [if_neg hge, if_neg hsan]

/-! ## Chronological order is preserved by the operations

These lemmas justify reading "reachable ledger state" as "order list sorted
by nondecreasing timestamp": orders are only ever appended with the current
time, and the FIFO walk rewrites orders in place without touching
timestamps. -/

theorem fifoWalk_timestamps (m oc : String) :
    ∀ (orders : List Order) (q : ℚ),
      (fifoWalk orders m oc q).1.map Order.timestamp = orders.map Order.timestamp := by
  intro orders
  induction orders with
  | nil => intro q; rfl
  | cons o rest ih =>
    intro q
    by_cases hcond : 0 < q ∧ matchesTarget m oc o
    · rw [fifoWalk_cons_of_pos m oc o rest q hcond]
      simp [ih]
    · rw [fifoWalk_cons_of_neg m oc o rest q hcond]
      simp [ih]

/-- Appending a fresh order timestamped `now ≥` every existing timestamp
preserves chronological order; this is `placeOrder`'s append. -/
theorem chron_append (l : List Order) (o : Order)
    (hchron : l.Pairwise (fun a b => a.timestamp ≤ b.timestamp))
    (hnow : ∀ a ∈ l, a.timestamp ≤ o.timestamp) :
    (l ++ [o]).Pairwise (fun a b => a.timestamp ≤ b.timestamp) := by
  rw [List.pairwise_append]
  exact ⟨hchron, List.pairwise_singleton _ _, fun a ha b hb => by
    rw [List.mem_singleton.mp hb]; exact hnow a ha⟩

/-- The ledger persisted by a successful `sellOrder` is chronologically
sorted whenever the input ledger was and `now` is at least every existing
timestamp. -/
theorem postSellOrders_chron (orders : List Order) (order : Order)
    (cp q : ℚ) (nid : String) (now : ℕ)
    (hchron : orders.Pairwise (fun a b => a.timestamp ≤ b.timestamp))
    (hnow : ∀ a ∈ orders, a.timestamp ≤ now) :
    (postSellOrders orders order cp q nid now).Pairwise
      (fun a b => a.timestamp ≤ b.timestamp) := by
  have hwalkts := fifoWalk_timestamps order.marketId order.outcome orders q
  have hwalk : (fifoWalk orders order.marketId order.outcome q).1.Pairwise
      (fun a b => a.timestamp ≤ b.timestamp) := by
    rw [← List.pairwise_map (f := Order.timestamp) (R := (· ≤ ·))] at hchron ⊢
    rw [hwalkts]
    exact hchron
  have hpruned : (soldOrders orders order.marketId order.outcome q).Pairwise
      (fun a b => a.timestamp ≤ b.timestamp) := List.Pairwise.filter _ hwalk
  apply chron_append _ _ hpruned
  intro a ha
  have hamem : a.timestamp ∈ orders.map Order.timestamp := by
    rw [← hwalkts]
    exact List.mem_map_of_mem Order.timestamp
      (List.mem_of_mem_filter ha)
  obtain ⟨b, hb, hba⟩ := List.mem_map.mp hamem
  rw [sellRecordOf, ← hba]
  exact hnow b hb

/-! ## Claim C1 -/

/-- C1 (counterexample): the claim as stated is false on the code. In the
scenario ledger (two open buys for `("m1","Yes")`: 100 shares / cost 40
then 100 shares / cost 70), the `sellOrder` call at price 0.60 for 150
shares succeeds, but the persisted ledger contains no order with the
earlier buy's id `"b1"` and no order with `shares = 0` at all: line 226 of
`useOrders.ts` prunes fully-consumed buy orders, so the earlier buy is not
"left with shares = 0" as the claim states. -/
theorem C1_counterexample :
    c1result.orderOf.isSome = true ∧
      c1result.book.orders.all (fun o => o.id ≠ "b1" ∧ o.shares ≠ 0) = true := by
  constructor
  · with_unfolding_all rfl
  · with_unfolding_all decide

/-- C1 (amended): the call succeeds; the FIFO walk consumes all 100 shares
of the earlier buy (cost 40) and 50 of the later (cost 35), accumulating
`costBasis = 75`; the appended sell order has proceeds `totalCost = 90`,
`pnl = 15` and `pnlPercentage = pnl / costBasis * 100 = 20`; the earlier
buy is removed from the persisted ledger (zero-share buys are pruned, not
retained), and the later buy is left with `shares = 50`, `totalCost = 35`. -/
theorem C1_amended :
    c1result.book = ⟨[c1buy2After, c1sellRecord], 3⟩
  ∧ c1result.orderOf = some c1sellRecord
  ∧ (fifoWalk c1book.orders "m1" "Yes" 150).2.1 = 75
  ∧ c1sellRecord.totalCost = 90
  ∧ c1sellRecord.pnl = some 15
  ∧ c1sellRecord.pnlPercentage = some 20
  ∧ c1buy2After.shares = 50
  ∧ c1buy2After.totalCost = 35 := by
  refine ⟨?_, ?_, ?_, ?_, ?_, ?_, ?_, ?_⟩ <;> with_unfolding_all rfl

/-! ## Claim C2 -/

/-- C2: for every ledger and every `sellOrder` call whose referenced
`orderId` exists (with nonnegative `sharesToSell`, per the spec's
precondition that share quantities are positive): the call fails with
`InsufficientShares` iff `sharesToSell` exceeds the sum of shares over open
buy orders of the referenced order's `(marketId, outcome)`; on such a
failure the persisted ledger is unchanged; and whenever the pre-check
passes, the FIFO walk terminates with `sharesLeftToSell = 0`, i.e. it
allocates exactly `sharesToSell` shares. -/
theorem C2_sellOrder_precheck (ob : OrderBook) (orderId : String)
    (currentPrice sharesToSell : ℚ) (newId : String) (now : ℕ) (order : Order)
    (hfind : ob.orders.find? (fun o => o.id = orderId) = some order)
    (hnonneg : 0 ≤ sharesToSell) :
    ((∃ held req, (sellOrder ob orderId currentPrice sharesToSell newId now).errorOf =
        some (OrderError.insufficientShares held req)) ↔
      openSharesFor ob.orders order.marketId order.outcome < sharesToSell)
  ∧ (openSharesFor ob.orders order.marketId order.outcome < sharesToSell →
      (sellOrder ob orderId currentPrice sharesToSell newId now).book = ob)
  ∧ (sharesToSell ≤ openSharesFor ob.orders order.marketId order.outcome →
      (fifoWalk ob.orders order.marketId order.outcome sharesToSell).2.2 = 0) := by
  have hwalk : sharesToSell ≤ openSharesFor ob.orders order.marketId order.outcome →
      (fifoWalk ob.orders order.marketId order.outcome sharesToSell).2.2 = 0 := by
    intro hle
    rw [fifoWalk_left_eq order.marketId order.outcome ob.orders sharesToSell hnonneg]
    exact max_eq_left (by linarith)
  by_cases hlt : openSharesFor ob.orders order.marketId order.outcome < sharesToSell
  · rw [sellOrder_eq_insufficientShares ob orderId currentPrice sharesToSell newId now
      order hfind hlt]
    exact ⟨⟨fun _ => hlt, fun _ => ⟨_, _, rfl⟩⟩, fun _ => rfl, hwalk⟩
  · have hnone : ∀ held req,
        (sellOrder ob orderId currentPrice sharesToSell newId now).errorOf ≠
          some (OrderError.insufficientShares held req) := by
      intro held req
      by_cases hsan : STARTING_BALANCE * (11 / 10) <
          availableBalanceOf (postSellOrders ob.orders order currentPrice sharesToSell newId now)
      · rw [sellOrder_eq_sanity ob orderId currentPrice sharesToSell newId now order
          hfind hlt hsan]
        intro hcontra
        simp [OpResult.errorOf] at hcontra
      · rw [sellOrder_eq_ok ob orderId currentPrice sharesToSell newId now order
          hfind hlt hsan]
        intro hcontra
        simp [OpResult.errorOf] at hcontra
    exact ⟨⟨fun ⟨held, req, h⟩ => absurd h (hnone held req), fun h => absurd h hlt⟩,
      fun h => absurd h hlt, hwalk⟩

/-- C2 witness: at the concrete two-buy ledger, 150 requested against 200
open shares passes the pre-check and the walk allocates all 150. -/
theorem C2_witness :
    ¬ openSharesFor c1book.orders c1buy1.marketId c1buy1.outcome < 150 ∧
      (fifoWalk c1book.orders c1buy1.marketId c1buy1.outcome 150).2.2 = 0 := by
  have h := C2_sellOrder_precheck c1book "b1" (3 / 5) 150 "s1" 3 c1buy1
    (by with_unfolding_all rfl) (by with_unfolding_all decide)
  exact ⟨by with_unfolding_all decide, h.2.2 (by with_unfolding_all decide)⟩

/-! ## Claim C3 -/

/-- C3: in a reachable (hence chronologically ordered) ledger — orders are
only ever appended with the current time and the walk never edits
timestamps, see `chron_append` and `postSellOrders_chron` — the FIFO walk
of `sellOrder` consumes the earliest-timestamped open shares first: if the
open buy at position `j` had shares consumed by the call, then every open
buy for the same `(marketId, outcome)` with a strictly earlier timestamp
was reduced to zero shares by that same call. -/
theorem C3_fifo_consumes_earliest (orders : List Order) (marketId outcome : String)
    (sharesToSell : ℚ)
    (hchron : orders.Pairwise (fun a b => a.timestamp ≤ b.timestamp))
    (i j : ℕ) (oi oj oj' : Order)
    (hi : orders[i]? = some oi) (hj : orders[j]? = some oj)
    (hj' : (fifoWalk orders marketId outcome sharesToSell).1[j]? = some oj')
    (hmatch : matchesTarget marketId outcome oi)
    (hts : oi.timestamp < oj.timestamp)
    (hconsumed : oj'.shares < oj.shares) :
    ∃ oi', (fifoWalk orders marketId outcome sharesToSell).1[i]? = some oi' ∧
      oi'.shares = 0 := by
  have hilen : i < orders.length := by
    by_contra hge
    rw [List.getElem?_eq_none (le_of_not_lt hge)] at hi
    exact Option.noConfusion hi
  have hjlen : j < orders.length := by
    by_contra hge
    rw [List.getElem?_eq_none (le_of_not_lt hge)] at hj
    exact Option.noConfusion hj
  have hij : i < j := by
    rcases lt_trichotomy i j with h | h | h
    · exact h
    · exfalso
      subst h
      rw [hi] at hj
      rw [Option.some.inj hj] at hts
      exact lt_irrefl _ hts
    · exfalso
      have hle := List.pairwise_iff_getElem.mp hchron j i hjlen hilen h
      rw [List.getElem?_eq_getElem hilen] at hi
      rw [List.getElem?_eq_getElem hjlen] at hj
      rw [Option.some.inj hi, Option.some.inj hj] at hle
      exact absurd hts (not_lt.mpr hle)
  exact fifoWalk_fifo marketId outcome orders sharesToSell i j oi oj oj' hi hj hj'
    hconsumed hij hmatch

/-- C3 witness: in the two-buy scenario the later buy was reduced from 100
to 50 shares, so the earlier buy ends the walk at exactly zero shares. -/
theorem C3_witness :
    ∃ oi', (fifoWalk c1book.orders "m1" "Yes" 150).1[0]? = some oi' ∧ oi'.shares = 0 :=
  C3_fifo_consumes_earliest c1book.orders "m1" "Yes" 150
    (by with_unfolding_all decide) 0 1 c1buy1 c1buy2 c1buy2After
    (by with_unfolding_all rfl) (by with_unfolding_all rfl) (by with_unfolding_all rfl)
    (by with_unfolding_all decide) (by with_unfolding_all decide)
    (by with_unfolding_all decide)

/-! ## Claim C4 -/

/-- C4: for every ledger, `placeOrder` with `action = buy` fails with an
`InsufficientBalance` error iff `shares * price` exceeds
`availableBalanceOf` (`10000` minus open-buy cost bases plus realized sell
P&L); the error carries the available and required amounts and the ledger
is unchanged; and on success exactly one new buy order is appended, with
`currentPrice = price`, `currentValue = shares * price` and `pnl = 0`. -/
theorem C4_placeOrder_buy (ob : OrderBook) (mId mQ oc : String)
    (shares price : ℚ) (nid : String) (now : ℕ) :
    ((∃ avail req, (placeOrder ob mId mQ oc Action.buy shares price nid now).errorOf =
        some (OrderError.insufficientBalance avail req)) ↔
      availableBalanceOf ob.orders < shares * price)
  ∧ (availableBalanceOf ob.orders < shares * price →
      (placeOrder ob mId mQ oc Action.buy shares price nid now).errorOf =
          some (OrderError.insufficientBalance (availableBalanceOf ob.orders)
            (shares * price))
        ∧ (placeOrder ob mId mQ oc Action.buy shares price nid now).book = ob)
  ∧ (¬ availableBalanceOf ob.orders < shares * price →
      (placeOrder ob mId mQ oc Action.buy shares price nid now).book.orders =
          ob.orders ++ [placedOrder mId mQ oc Action.buy shares price nid now]
        ∧ (placeOrder ob mId mQ oc Action.buy shares price nid now).orderOf =
            some (placedOrder mId mQ oc Action.buy shares price nid now)
        ∧ (placedOrder mId mQ oc Action.buy shares price nid now).action = Action.buy
        ∧ (placedOrder mId mQ oc Action.buy shares price nid now).currentPrice = some price
        ∧ (placedOrder mId mQ oc Action.buy shares price nid now).currentValue =
            some (shares * price)
        ∧ (placedOrder mId mQ oc Action.buy shares price nid now).pnl = some 0) := by
  by_cases hbal : availableBalanceOf ob.orders < shares * price
  · rw [placeOrder_eq_insufficientBalance ob mId mQ oc Action.buy shares price nid now
      ⟨rfl, hbal⟩]
    exact ⟨⟨fun _ => hbal, fun _ => ⟨_, _, rfl⟩⟩, fun _ => ⟨rfl, rfl⟩,
      fun h => absurd hbal h⟩
  · have h2 : ¬ (Action.buy = Action.sell ∧ netPositionOf ob.orders mId oc < shares) :=
      fun h => by cases h.1
    rw [placeOrder_eq_ok ob mId mQ oc Action.buy shares price nid now
      (fun h => hbal h.2) h2]
    refine ⟨⟨?_, fun h => absurd h hbal⟩, fun h => absurd h hbal,
      fun _ => ⟨rfl, rfl, rfl, rfl, rfl, rfl⟩⟩
    rintro ⟨avail, req, h⟩
    simp [OpResult.errorOf] at h

/-- C4 witness: on the empty ledger a buy of 1 share at 0.5 is affordable
and appends exactly the expected order. -/
theorem C4_witness :
    (placeOrder ⟨[], 0⟩ "m" "q" "Yes" Action.buy 1 (1 / 2) "n" 1).book.orders =
        ([] : List Order) ++ [placedOrder "m" "q" "Yes" Action.buy 1 (1 / 2) "n" 1]
      ∧ (placeOrder ⟨[], 0⟩ "m" "q" "Yes" Action.buy 1 (1 / 2) "n" 1).orderOf =
          some (placedOrder "m" "q" "Yes" Action.buy 1 (1 / 2) "n" 1)
      ∧ (placedOrder "m" "q" "Yes" Action.buy 1 (1 / 2) "n" 1).action = Action.buy
      ∧ (placedOrder "m" "q" "Yes" Action.buy 1 (1 / 2) "n" 1).currentPrice = some (1 / 2)
      ∧ (placedOrder "m" "q" "Yes" Action.buy 1 (1 / 2) "n" 1).currentValue =
          some (1 * (1 / 2))
      ∧ (placedOrder "m" "q" "Yes" Action.buy 1 (1 / 2) "n" 1).pnl = some 0 :=
  (C4_placeOrder_buy ⟨[], 0⟩ "m" "q" "Yes" 1 (1 / 2) "n" 1).2.2
    (by with_unfolding_all decide)

/-! ## Claim C5 -/

/-- C5 (counterexample): the claim is false on the code. In the scenario
ledger (open buy of 100 shares and a prior standalone sell of 50 for the
same pair), selling 60 shares through `placeOrder` fails with
`InsufficientShares` even though 60 does not exceed the sum of open buy
shares (100): lines 117-125 net prior sell orders against the buys,
contrary to the claim's "prior sell orders are not netted" definition. -/
theorem C5_counterexample :
    (placeOrder c5book "m" "q" "Yes" Action.sell 60 (1 / 2) "n" 3).errorOf =
        some (OrderError.insufficientShares 50 60)
  ∧ ¬ openSharesFor c5book.orders "m" "Yes" < 60 := by
  constructor
  · with_unfolding_all rfl
  · with_unfolding_all decide

/-- C5 (amended): `placeOrder` with `action = sell` fails with
`InsufficientShares` iff `shares` exceeds the *netted* position
`netPositionOf` — buy shares minus sell shares over all orders of the
pair — and the error carries that held position and the requested
shares. -/
theorem C5_amended (ob : OrderBook) (mId mQ oc : String) (shares price : ℚ)
    (nid : String) (now : ℕ) :
    ((∃ held req, (placeOrder ob mId mQ oc Action.sell shares price nid now).errorOf =
        some (OrderError.insufficientShares held req)) ↔
      netPositionOf ob.orders mId oc < shares)
  ∧ (netPositionOf ob.orders mId oc < shares →
      (placeOrder ob mId mQ oc Action.sell shares price nid now).errorOf =
        some (OrderError.insufficientShares (netPositionOf ob.orders mId oc) shares)) := by
  have h1 : ¬ (Action.sell = Action.buy ∧ availableBalanceOf ob.orders < shares * price) :=
    fun h => by cases h.1
  by_cases hnet : netPositionOf ob.orders mId oc < shares
  · rw [placeOrder_eq_insufficientShares ob mId mQ oc Action.sell shares price nid now
      h1 ⟨rfl, hnet⟩]
    exact ⟨⟨fun _ => hnet, fun _ => ⟨_, _, rfl⟩⟩, fun _ => rfl⟩
  · rw [placeOrder_eq_ok ob mId mQ oc Action.sell shares price nid now h1
      (fun h => hnet h.2)]
    refine ⟨⟨?_, fun h => absurd h hnet⟩, fun h => absurd h hnet⟩
    rintro ⟨held, req, h⟩
    simp [OpResult.errorOf] at h

/-- C5 witness: the amended netted-position rule at the concrete ledger. -/
theorem C5_witness :
    (placeOrder c5book "m" "q" "Yes" Action.sell 60 (1 / 2) "n" 3).errorOf =
      some (OrderError.insufficientShares (netPositionOf c5book.orders "m" "Yes") 60) :=
  (C5_amended c5book "m" "q" "Yes" 60 (1 / 2) "n" 3).2 (by with_unfolding_all decide)

/-! ## Claim C6 -/

/-- C6 (counterexample): the claim is false on the code. The scenario
market is found for the order's `marketId`, is expired and has declared
winner `"Yes"` equal to the order's outcome, yet `updatePnl` leaves the
open buy completely unchanged — its `currentPrice` stays 0.4, not 1.0 —
because the market lists no outcomes/prices and the resolution override
(lines 312-315) only runs inside the branch where a quote was found. -/
theorem C6_counterexample :
    c6market.isExpired = true
  ∧ c6market.resolvedOutcome = some "Yes"
  ∧ findMarketFor [c6market] c6order.marketId = some c6market
  ∧ c6order.action = Action.buy
  ∧ (0 : ℚ) < c6order.shares
  ∧ c6order.outcome = "Yes"
  ∧ (updatePnl c6book [c6market] 9).1.orders = [c6order]
  ∧ c6order.currentPrice ≠ some 1 := by
  refine ⟨rfl, rfl, ?_, rfl, ?_, rfl, ?_, ?_⟩
  · with_unfolding_all rfl
  · with_unfolding_all decide
  · with_unfolding_all rfl
  · with_unfolding_all decide

/-- C6 (amended): `updatePnl` maps every order through `updateOrder`; sell
orders and zero-share buys are left unchanged; and every open buy whose
market is found, **whose quote is found** (its outcome is listed with a
price entry — the condition the claim omits), and whose market is expired
with a declared winning outcome gets `currentPrice` 1.0 or 0.0 by winner,
with `currentValue`, `pnl` and `pnlPercentage` recomputed from `shares`
and `totalCost`. -/
theorem C6_amended (ob : OrderBook) (markets : List Market) (now : ℕ) :
    ((updatePnl ob markets now).1.orders = ob.orders.map (updateOrder markets))
  ∧ (∀ o : Order, o.action = Action.sell ∨ o.shares = 0 → updateOrder markets o = o)
  ∧ (∀ (o : Order) (market : Market) (q : ℚ) (w : String),
      o.action = Action.buy → 0 < o.shares →
      findMarketFor markets o.marketId = some market →
      quoteFor market o.outcome = some q →
      market.isExpired = true → market.resolvedOutcome = some w → w ≠ "" →
      updateOrder markets o = { o with
        currentPrice := some (if o.outcome = w then 1 else 0)
        currentValue := some (o.shares * if o.outcome = w then 1 else 0)
        pnl := some (o.shares * (if o.outcome = w then 1 else 0) - o.totalCost)
        pnlPercentage := some (if 0 < o.totalCost
          then (o.shares * (if o.outcome = w then 1 else 0) - o.totalCost) /
            o.totalCost * 100
          else 0) }) := by
  refine ⟨updatePnl_orders ob markets now, ?_, ?_⟩
  · intro o ho
    apply updateOrder_of_not_openBuy
    rintro ⟨hbuy, hpos⟩
    rcases ho with hsell | hzero
    · rw [hsell] at hbuy
      exact absurd hbuy (by decide)
    · rw [hzero] at hpos
      exact lt_irrefl _ hpos
  · intro o market q w hbuy hpos hfm hq hexp hres hw
    unfold updateOrder
    rw [if_pos ⟨hbuy, hpos⟩]
    simp only [hfm, hq, hres]
    rw [if_pos ⟨hexp, hw⟩]

/-- C6 witness: an open buy on the losing outcome of a resolved market is
marked to `currentPrice = 0`. -/
theorem C6_witness :
    (updateOrder [c6resMarket] c6noOrder).currentPrice = some 0 := by
  have h := (C6_amended ⟨[], 0⟩ [c6resMarket] 0).2.2 c6noOrder c6resMarket (7 / 10) "Yes"
    (by with_unfolding_all rfl) (by with_unfolding_all decide)
    (by with_unfolding_all rfl) (by with_unfolding_all rfl)
    (by with_unfolding_all rfl) (by with_unfolding_all rfl)
    (by with_unfolding_all decide)
  rw [h]
  with_unfolding_all rfl

/-! ## Claim C7 -/

/-- C7 (counterexample): the claim is false on the code. In the scenario,
the only order's recomputed snapshot is identical to its stored one
(`updateOrder` returns it unchanged), yet `updatePnl` still persists: the
`updated` flag (line 317) is set whenever a quote is found, not when
values change, so the ledger is re-persisted and `lastUpdated` moves from
0 to 5. -/
theorem C7_counterexample :
    updateOrder [c7market] c7order = c7order
  ∧ (updatePnl c7book [c7market] 5).2.1 = true
  ∧ (updatePnl c7book [c7market] 5).1.lastUpdated = 5
  ∧ c7book.lastUpdated = 0 := by
  refine ⟨?_, ?_, ?_, rfl⟩
  · with_unfolding_all rfl
  · with_unfolding_all rfl
  · with_unfolding_all rfl

/-- C7 (amended): `updatePnl` persists iff at least one open buy order has
a matching market and quote (`touched`), regardless of whether any value
changed; when nothing is touched the stored ledger — `lastUpdated`
included — is exactly the input; and a missing quote never fails and
leaves that order's previous snapshot fields unchanged. -/
theorem C7_amended (ob : OrderBook) (markets : List Market) (now : ℕ) :
    ((updatePnl ob markets now).2.1 = ob.orders.any (touched markets))
  ∧ (ob.orders.any (touched markets) = false → (updatePnl ob markets now).1 = ob)
  ∧ (∀ o : Order, touched markets o = false → updateOrder markets o = o) := by
  refine ⟨rfl, ?_, fun o h => updateOrder_of_untouched markets o h⟩
  intro h
  unfold updatePnl
  simp [h]

/-- C7 witness: with no markets supplied nothing is touched, and the stored
ledger is exactly the input. -/
theorem C7_witness : (updatePnl c7book [] 5).1 = c7book :=
  (C7_amended c7book [] 5).2.1 (by with_unfolding_all rfl)

/-! ## Claim C8 -/

/-- C8 (counterexample): the claim is false on the code. With an existing
sell order carrying realized `pnl = 15`, a subsequent `placeOrder` buy
succeeds and its summary reports `realizedPnl = 0` (lines 164-172
hard-code it), while the sum of `pnl` over sell orders of the
post-operation ledger is 15. -/
theorem C8_counterexample :
    realizedPnlOf
        (placeOrder c8book "m" "q" "Yes" Action.buy 1 (1 / 2) "n" 3).book.orders = 15
  ∧ (placeOrder c8book "m" "q" "Yes" Action.buy 1 (1 / 2) "n" 3).summaryOf.map
      OrderSummary.realizedPnl = some 0 := by
  constructor
  · with_unfolding_all rfl
  · with_unfolding_all rfl

/-- C8 (amended): the summaries computed by `sellOrder` and `updatePnl`
report `realizedPnl` equal to the sum of `pnl` over all sell orders of the
post-operation ledger; `placeOrder`'s summary instead hard-codes
`realizedPnl = 0`; and no operation ever modifies an existing sell order —
every sell order of the input ledger appears unchanged (same record) in
each operation's persisted ledger. -/
theorem C8_amended (ob : OrderBook) (mId mQ oc : String) (act : Action)
    (sh pr : ℚ) (pid : String) (pnow : ℕ) (oid : String) (cp q : ℚ)
    (sid : String) (snow : ℕ) (markets : List Market) (unow : ℕ) :
    (∀ s, (sellOrder ob oid cp q sid snow).summaryOf = some s →
        s.realizedPnl = realizedPnlOf (sellOrder ob oid cp q sid snow).book.orders)
  ∧ (updatePnl ob markets unow).2.2.realizedPnl =
      realizedPnlOf (updatePnl ob markets unow).1.orders
  ∧ (∀ s, (placeOrder ob mId mQ oc act sh pr pid pnow).summaryOf = some s →
        s.realizedPnl = 0)
  ∧ (∀ o ∈ ob.orders, o.action = Action.sell →
        o ∈ (placeOrder ob mId mQ oc act sh pr pid pnow).book.orders
      ∧ o ∈ (sellOrder ob oid cp q sid snow).book.orders
      ∧ o ∈ (updatePnl ob markets unow).1.orders) := by
  refine ⟨?_, rfl, ?_, ?_⟩
  · intro s hs
    cases hfind : ob.orders.find? (fun o => o.id = oid) with
    | none =>
      rw [sellOrder_eq_notFound ob oid cp q sid snow hfind] at hs
      simp [OpResult.summaryOf] at hs
    | some order =>
      by_cases hlt : openSharesFor ob.orders order.marketId order.outcome < q
      · rw [sellOrder_eq_insufficientShares ob oid cp q sid snow order hfind hlt] at hs
        simp [OpResult.summaryOf] at hs
      · by_cases hsan : STARTING_BALANCE * (11 / 10) <
            availableBalanceOf (postSellOrders ob.orders order cp q sid snow)
        · rw [sellOrder_eq_sanity ob oid cp q sid snow order hfind hlt hsan] at hs
          simp [OpResult.summaryOf] at hs
        · rw [sellOrder_eq_ok ob oid cp q sid snow order hfind hlt hsan] at hs ⊢
          simp only [OpResult.summaryOf, Option.some.injEq] at hs
          rw [← hs]
          exact mkFullSummary_realizedPnl _
  · intro s hs
    by_cases hb : act = Action.buy ∧ availableBalanceOf ob.orders < sh * pr
    · rw [placeOrder_eq_insufficientBalance ob mId mQ oc act sh pr pid pnow hb] at hs
      simp [OpResult.summaryOf] at hs
    · by_cases hse : act = Action.sell ∧ netPositionOf ob.orders mId oc < sh
      · rw [placeOrder_eq_insufficientShares ob mId mQ oc act sh pr pid pnow hb hse] at hs
        simp [OpResult.summaryOf] at hs
      · rw [placeOrder_eq_ok ob mId mQ oc act sh pr pid pnow hb hse] at hs
        simp only [OpResult.summaryOf, Option.some.injEq] at hs
        rw [← hs]
        rfl
  · intro o ho hsell
    refine ⟨?_, ?_, ?_⟩
    · by_cases hb : act = Action.buy ∧ availableBalanceOf ob.orders < sh * pr
      · rw [placeOrder_eq_insufficientBalance ob mId mQ oc act sh pr pid pnow hb]
        exact ho
      · by_cases hse : act = Action.sell ∧ netPositionOf ob.orders mId oc < sh
        · rw [placeOrder_eq_insufficientShares ob mId mQ oc act sh pr pid pnow hb hse]
          exact ho
        · rw [placeOrder_eq_ok ob mId mQ oc act sh pr pid pnow hb hse]
          exact List.mem_append_left _ ho
    · cases hfind : ob.orders.find? (fun o => o.id = oid) with
      | none =>
        rw [sellOrder_eq_notFound ob oid cp q sid snow hfind]
        exact ho
      | some order =>
        by_cases hlt : openSharesFor ob.orders order.marketId order.outcome < q
        · rw [sellOrder_eq_insufficientShares ob oid cp q sid snow order hfind hlt]
          exact ho
        · have hmem : o ∈ postSellOrders ob.orders order cp q sid snow := by
            apply List.mem_append_left
            apply List.mem_filter.mpr
            refine ⟨fifoWalk_preserves_sells order.marketId order.outcome ob.orders q o
              ho hsell, ?_⟩
            simp [hsell]
          by_cases hsan : STARTING_BALANCE * (11 / 10) <
              availableBalanceOf (postSellOrders ob.orders order cp q sid snow)
          · rw [sellOrder_eq_sanity ob oid cp q sid snow order hfind hlt hsan]
            exact hmem
          · rw [sellOrder_eq_ok ob oid cp q sid snow order hfind hlt hsan]
            exact hmem
    · rw [updatePnl_orders ob markets unow]
      exact List.mem_map.mpr ⟨o, ho, updateOrder_of_not_openBuy markets o
        (fun hc => by rw [hsell] at hc; exact absurd hc.1 (by decide))⟩

/-- C8 witness: at the concrete ledger, `placeOrder`'s summary hard-codes
zero realized P&L and the prior sell order survives a mark-to-market call
untouched. -/
theorem C8_witness :
    (mkPlaceSummary
        (c8book.orders ++ [placedOrder "m" "q" "Yes" Action.buy 1 (1 / 2) "n" 3])).realizedPnl
        = 0
  ∧ c8sell ∈ (updatePnl c8book [] 9).1.orders := by
  have h := C8_amended c8book "m" "q" "Yes" Action.buy 1 (1 / 2) "n" 3 "x" (1 / 2) 1
    "s2" 4 [] 9
  constructor
  · exact h.2.2.1 _ (by with_unfolding_all rfl)
  · exact (h.2.2.2 c8sell (by with_unfolding_all decide) rfl).2.2

/-! ## Claim C9 -/

/-- C9 (counterexample): the claim is false on the code. Selling all 2500
shares bought at 0.01 for 0.50 realizes `pnl = 1225`; the post-sell
available balance 11225 exceeds `1.1 * 10000`, so `sellOrder` throws the
sanity-check error (lines 273-277) — but only after `saveOrdersToStorage`
(line 249), so this failing call persists the mutated ledger. -/
theorem C9_counterexample :
    c9result.errorOf = some (OrderError.sanityCheck 11225)
  ∧ c9result.book ≠ c9book := by
  constructor
  · with_unfolding_all rfl
  · with_unfolding_all decide

/-- C9 (amended): every failing `placeOrder` leaves the persisted ledger
unchanged, and so does `sellOrder` when it fails with `OrderNotFound` or
`InsufficientShares`; only `sellOrder`'s post-persist sanity check can
fail after the mutated ledger was already persisted. -/
theorem C9_amended (ob : OrderBook) (mId mQ oc : String) (act : Action)
    (sh pr : ℚ) (pid : String) (pnow : ℕ) (oid : String) (cp q : ℚ)
    (sid : String) (snow : ℕ) :
    ((∃ e, (placeOrder ob mId mQ oc act sh pr pid pnow).errorOf = some e) →
        (placeOrder ob mId mQ oc act sh pr pid pnow).book = ob)
  ∧ ((sellOrder ob oid cp q sid snow).errorOf = some OrderError.orderNotFound →
        (sellOrder ob oid cp q sid snow).book = ob)
  ∧ (∀ held req, (sellOrder ob oid cp q sid snow).errorOf =
        some (OrderError.insufficientShares held req) →
        (sellOrder ob oid cp q sid snow).book = ob) := by
  refine ⟨?_, ?_, ?_⟩
  · rintro ⟨e, he⟩
    by_cases hb : act = Action.buy ∧ availableBalanceOf ob.orders < sh * pr
    · rw [placeOrder_eq_insufficientBalance ob mId mQ oc act sh pr pid pnow hb]
    · by_cases hse : act = Action.sell ∧ netPositionOf ob.orders mId oc < sh
      · rw [placeOrder_eq_insufficientShares ob mId mQ oc act sh pr pid pnow hb hse]
      · rw [placeOrder_eq_ok ob mId mQ oc act sh pr pid pnow hb hse] at he
        simp [OpResult.errorOf] at he
  · intro he
    cases hfind : ob.orders.find? (fun o => o.id = oid) with
    | none => rw [sellOrder_eq_notFound ob oid cp q sid snow hfind]
    | some order =>
      by_cases hlt : openSharesFor ob.orders order.marketId order.outcome < q
      · rw [sellOrder_eq_insufficientShares ob oid cp q sid snow order hfind hlt]
      · by_cases hsan : STARTING_BALANCE * (11 / 10) <
            availableBalanceOf (postSellOrders ob.orders order cp q sid snow)
        · rw [sellOrder_eq_sanity ob oid cp q sid snow order hfind hlt hsan] at he
          simp [OpResult.errorOf] at he
        · rw [sellOrder_eq_ok ob oid cp q sid snow order hfind hlt hsan] at he
          simp [OpResult.errorOf] at he
  · intro held req he
    cases hfind : ob.orders.find? (fun o => o.id = oid) with
    | none => rw [sellOrder_eq_notFound ob oid cp q sid snow hfind]
    | some order =>
      by_cases hlt : openSharesFor ob.orders order.marketId order.outcome < q
      · rw [sellOrder_eq_insufficientShares ob oid cp q sid snow order hfind hlt]
      · by_cases hsan : STARTING_BALANCE * (11 / 10) <
            availableBalanceOf (postSellOrders ob.orders order cp q sid snow)
        · rw [sellOrder_eq_sanity ob oid cp q sid snow order hfind hlt hsan] at he
          simp [OpResult.errorOf] at he
        · rw [sellOrder_eq_ok ob oid cp q sid snow order hfind hlt hsan] at he
          simp [OpResult.errorOf] at he

/-- C9 witness: a sell referencing a missing order id fails with
`OrderNotFound` and leaves the empty ledger unchanged. -/
theorem C9_witness : (sellOrder ⟨[], 0⟩ "x" 1 1 "s" 1).book = ⟨[], 0⟩ :=
  (C9_amended ⟨[], 0⟩ "m" "q" "Yes" Action.buy 1 1 "p" 1 "x" 1 1 "s" 1).2.1
    (by with_unfolding_all rfl)

/-! ## Claim C10 -/

/-- C10: every sell order created by `placeOrder` (the simplified sell
path) is created with `pnl = 0` and `pnlPercentage = 0`; it therefore
contributes exactly 0 to the realized-P&L sum, and the available balance
after the call equals the available balance before it — the sale proceeds
never increase the available balance (unlike a sell created by
`sellOrder`, whose `pnl` is proceeds minus cost basis). -/
theorem C10_place_sell_zero_pnl (ob : OrderBook) (mId mQ oc : String)
    (shares price : ℚ) (nid : String) (now : ℕ) (o : Order)
    (hok : (placeOrder ob mId mQ oc Action.sell shares price nid now).orderOf = some o) :
    o.pnl = some 0 ∧ o.pnlPercentage = some 0
  ∧ realizedPnlOf (placeOrder ob mId mQ oc Action.sell shares price nid now).book.orders =
      realizedPnlOf ob.orders
  ∧ availableBalanceOf
        (placeOrder ob mId mQ oc Action.sell shares price nid now).book.orders =
      availableBalanceOf ob.orders := by
  have h1 : ¬ (Action.sell = Action.buy ∧ availableBalanceOf ob.orders < shares * price) :=
    fun h => by cases h.1
  by_cases hnet : netPositionOf ob.orders mId oc < shares
  · rw [placeOrder_eq_insufficientShares ob mId mQ oc Action.sell shares price nid now
      h1 ⟨rfl, hnet⟩] at hok
    simp [OpResult.orderOf] at hok
  · rw [placeOrder_eq_ok ob mId mQ oc Action.sell shares price nid now h1
      (fun h => hnet h.2)] at hok ⊢
    simp only [OpResult.orderOf, Option.some.injEq] at hok
    rw [← hok]
    have hsell : (placedOrder mId mQ oc Action.sell shares price nid now).action =
      Action.sell := rfl
    refine ⟨rfl, rfl, ?_, ?_⟩
    · dsimp only
      rw [realizedPnlOf_append_sell _ _ hsell]
      simp [placedOrder]
    · dsimp only
      unfold availableBalanceOf
      rw [realizedPnlOf_append_sell _ _ hsell, totalInvestedOf_append_sell _ _ hsell]
      simp [placedOrder]

/-- C10 witness: selling 5 of 10 held shares through the simplified path
creates a zero-P&L sell and leaves the available balance unchanged. -/
theorem C10_witness :
    (placedOrder "m" "q" "Yes" Action.sell 5 (1 / 2) "n" 2).pnl = some 0
  ∧ (placedOrder "m" "q" "Yes" Action.sell 5 (1 / 2) "n" 2).pnlPercentage = some 0
  ∧ realizedPnlOf
        (placeOrder w10book "m" "q" "Yes" Action.sell 5 (1 / 2) "n" 2).book.orders =
      realizedPnlOf w10book.orders
  ∧ availableBalanceOf
        (placeOrder w10book "m" "q" "Yes" Action.sell 5 (1 / 2) "n" 2).book.orders =
      availableBalanceOf w10book.orders :=
  C10_place_sell_zero_pnl w10book "m" "q" "Yes" 5 (1 / 2) "n" 2
    (placedOrder "m" "q" "Yes" Action.sell 5 (1 / 2) "n" 2) (by with_unfolding_all rfl)

end PolymarketSim
